import Mathlib

/-!
Verification of the schema-extraction and data-generation core of
`generate_data.py`.  Python strings are modelled as `String`/`List Char`
(ASCII behaviour of `str.lower`, `str.upper`, `\s`, and the regex
character classes), Python `None` as `Option`, and the dynamically typed
row values as an inductive type.  The structured multi-dialect pass
delegates all parsing to the external `sqlglot` library, which is not
part of this repository; its outcome is therefore passed to
`parse_schema` as an explicit parameter (see the doc comment there).
-/

namespace Datagen

/-- The single-quote character (code 39). -/
def sqChar : Char := Char.ofNat 39

/-- The backtick character (code 96). -/
def bqChar : Char := Char.ofNat 96

/-- ASCII whitespace, the characters matched by the regex class `\s`
and stripped by `str.strip()` for ASCII input. -/
def isSpace (c : Char) : Bool :=
  c = ' ' || c = Char.ofNat 9 || c = Char.ofNat 10 ||
  c = Char.ofNat 13 || c = Char.ofNat 11 || c = Char.ofNat 12

/-- Python substring containment (`sub in s`) on character lists. -/
def isSubList (sub : List Char) : List Char → Bool
  | [] => sub.isEmpty
  | c :: rest => sub.isPrefixOf (c :: rest) || isSubList sub rest

/-- Python substring containment on strings (`sub in s`). -/
def pyIn (sub s : String) : Bool := isSubList sub.toList s.toList

/-- A dynamically typed row value, as produced by the generators and
consumed by `format_sql_value`.  Floating-point values are modelled by
the decimal text `str` would print for them, which is all the formatter
uses. -/
inductive SqlValue where
  | vNull : SqlValue
  | vBool (b : Bool) : SqlValue
  | vInt (n : Int) : SqlValue
  | vFloat (text : String) : SqlValue
  | vStr (s : String) : SqlValue
deriving DecidableEq, Repr

/-- Python `str(val)` on the modelled values. -/
def pyStr : SqlValue → String
  | .vNull => "None"
  | .vBool b => if b then "True" else "False"
  | .vInt n => toString n
  | .vFloat t => t
  | .vStr s => s

/-- Python `isinstance(val, (int, float))`: in Python a `bool` is a
subclass of `int`, so booleans satisfy this test as well. -/
def pyIsNumeric : SqlValue → Bool
  | .vBool _ => true
  | .vInt _ => true
  | .vFloat _ => true
  | _ => false

/-- `str.replace` of every single quote by two single quotes, on
character lists. -/
def escQ : List Char → List Char
  | [] => []
  | c :: rest => if c = sqChar then sqChar :: sqChar :: escQ rest else c :: escQ rest

/-- `val.replace(chr(39), chr(39)*2)` on strings. -/
def doubleQuotes (s : String) : String := String.mk (escQ s.toList)

/-- The single-quote character as a one-character string. -/
def sqStr : String := String.mk [sqChar]

/-- `format_sql_value(val, engine)`: the branches are checked in the
source order `None`, `bool`, `(int, float)`, fallback; the boolean
branch is reached before the numeric `isinstance` test ever runs. -/
def format_sql_value : SqlValue → String → String
  | .vNull, _ => "NULL"
  | .vBool b, engine =>
      if engine = "mssql" then (if b then "1" else "0")
      else if b then "TRUE" else "FALSE"
  | v, _ =>
      if pyIsNumeric v then pyStr v
      else sqStr ++ doubleQuotes (pyStr v) ++ sqStr

/-- The rule of `map_column_to_mimesis` that fires for a given column,
one constructor per `return` site of the source. -/
inductive GenRule where
  | email | firstName | lastName | fullName | phone | address | city
  | country | zipCode | company | dateTime | decimalPrice | fkSmallInt
  | intRange | floatRange | textWord | boolChoice | fallbackWord
deriving DecidableEq, Repr

/-- Python `str.lower()` for ASCII text. -/
def pyLower (s : String) : String := String.mk (s.toList.map Char.toLower)

/-- Python `str.upper()` for ASCII text, on character lists. -/
def upperL (l : List Char) : List Char := l.map Char.toUpper

/-- Python `s.startswith(pre)`. -/
def pyStartsWith (s pre : String) : Bool := pre.toList.isPrefixOf s.toList

/-- `map_column_to_mimesis(col_name, col_type, generic)`, with each
mimesis provider replaced by the `GenRule` constructor naming it. -/
def map_column_to_mimesis (col_name col_type : String) : GenRule :=
  let name := pyLower col_name
  let t := pyLower col_type
  if pyIn "email" name then .email
  else if pyIn "first_name" name || pyIn "firstname" name then .firstName
  else if pyIn "last_name" name || pyIn "lastname" name then .lastName
  else if pyIn "name" name then .fullName
  else if pyIn "phone" name || pyIn "tel" name then .phone
  else if pyIn "address" name then .address
  else if pyIn "city" name then .city
  else if pyIn "country" name then .country
  else if pyIn "zip" name || pyIn "postal" name then .zipCode
  else if pyIn "company" name then .company
  else if pyIn "date" name || pyIn "created_at" name || pyIn "updated_at" name then .dateTime
  else if pyIn "price" name || pyIn "amount" name || pyIn "salary" name then .decimalPrice
  else if pyStartsWith name "id_" && name ≠ "id_usuario" && name ≠ "id" then .fkSmallInt
  else if pyIn "int" t then .intRange
  else if pyIn "float" t || pyIn "decimal" t || pyIn "numeric" t || pyIn "double" t then .floatRange
  else if pyIn "char" t || pyIn "text" t then .textWord
  else if pyIn "bool" t || pyIn "bit" t then .boolChoice
  else .fallbackWord

/-- The disjunction of the name-based rules 1 to 7 of the classifier,
as the specification lists them, applied to the lowercased column
name. -/
def specEarlierNameRule (name : String) : Bool :=
  pyIn "email" name ||
  (pyIn "first_name" name || pyIn "firstname" name) ||
  (pyIn "last_name" name || pyIn "lastname" name) ||
  pyIn "name" name ||
  (pyIn "phone" name || pyIn "tel" name) ||
  pyIn "address" name ||
  pyIn "city" name ||
  pyIn "country" name ||
  (pyIn "zip" name || pyIn "postal" name) ||
  pyIn "company" name ||
  (pyIn "date" name || pyIn "created_at" name || pyIn "updated_at" name) ||
  (pyIn "price" name || pyIn "amount" name || pyIn "salary" name)

/-- Removal of trailing ASCII whitespace from a character list. -/
def dropTrail (l : List Char) : List Char := (l.reverse.dropWhile isSpace).reverse

/-- Python `str.strip()` on character lists (ASCII whitespace). -/
def stripChars (l : List Char) : List Char := dropTrail (l.dropWhile isSpace)

/-- The comma-aware split of the fallback pass: one pass over the body,
a parenthesis-depth counter (a Python `int`, so it may go negative),
an unconditional emit of the stripped current fragment at every
zero-depth comma, and a final emit only when the accumulated fragment
is non-empty. -/
def splitCols : List Char → Int → List Char → List (List Char)
  | [], _, cur => if cur.isEmpty then [] else [stripChars cur]
  | c :: rest, depth, cur =>
    if c = '(' then splitCols rest (depth + 1) (cur ++ [c])
    else if c = ')' then splitCols rest (depth - 1) (cur ++ [c])
    else if c = ',' ∧ depth = 0 then stripChars cur :: splitCols rest depth []
    else splitCols rest depth (cur ++ [c])

/-- The number of commas occurring at parenthesis depth zero, counted
with the same depth bookkeeping as the split. -/
def topCommas : List Char → Int → Nat
  | [], _ => 0
  | c :: rest, depth =>
    if c = '(' then topCommas rest (depth + 1)
    else if c = ')' then topCommas rest (depth - 1)
    else if c = ',' ∧ depth = 0 then 1 + topCommas rest depth
    else topCommas rest depth

/-- Whether the accumulated fragment of the split is empty once the
whole input has been scanned, starting from the given depth and from a
fragment whose emptiness is the third argument. -/
def trailingEmpty : List Char → Int → Bool → Bool
  | [], _, curEmpty => curEmpty
  | c :: rest, depth, _ =>
    if c = '(' then trailingEmpty rest (depth + 1) false
    else if c = ')' then trailingEmpty rest (depth - 1) false
    else if c = ',' ∧ depth = 0 then trailingEmpty rest depth true
    else trailingEmpty rest depth false

/-- Scanning a text from a given parenthesis depth: `none` when the
depth would go below zero, otherwise the final depth.  An input is
balanced exactly when the scan from depth zero yields depth zero. -/
def depthRun : List Char → Int → Option Int
  | [], d => some d
  | c :: rest, d =>
    if c = '(' then depthRun rest (d + 1)
    else if c = ')' then (if d ≤ 0 then none else depthRun rest (d - 1))
    else depthRun rest d

/-- Whether a character is a parenthesis. -/
def isParen (c : Char) : Bool := c = '(' || c = ')'


/-- Python `str.split()` with no argument: split on runs of ASCII
whitespace, dropping empty parts; the second argument accumulates the
current token in reverse. -/
def pySplitGo : List Char → List Char → List (List Char)
  | [], cur => if cur.isEmpty then [] else [cur.reverse]
  | c :: rest, cur =>
    if isSpace c then
      (if cur.isEmpty then pySplitGo rest [] else cur.reverse :: pySplitGo rest [])
    else pySplitGo rest (c :: cur)

/-- The characters of the strip set used on identifiers: double quote,
backtick, single quote and square brackets. -/
def isQuoteChar (c : Char) : Bool :=
  c = '"' || c = bqChar || c = sqChar || c = '[' || c = ']'

/-- Python `s.strip(set)` for the quote and bracket set. -/
def stripSet (l : List Char) : List Char :=
  ((l.dropWhile isQuoteChar).reverse.dropWhile isQuoteChar).reverse

/-- A column descriptor: unquoted name, raw declared type text, and the
identity flag. -/
structure Column where
  name : String
  type : String
  is_identity : Bool
deriving DecidableEq, Repr

/-- The keyword tuple of the fallback filter, uppercased as in the
source. -/
def constraintKeywords : List (List Char) :=
  ["PRIMARY".toList, "FOREIGN".toList, "KEY".toList,
   "CONSTRAINT".toList, "INDEX".toList]

/-- Python `s.startswith(tuple)`: whether any of the given words is a
prefix of the text. -/
def startsWithAny (l : List Char) (ks : List (List Char)) : Bool :=
  ks.any (fun k => k.isPrefixOf l)

/-- The identity test of the fallback pass: a case-insensitive
substring search for IDENTITY, AUTO_INCREMENT or SERIAL over the whole
clause. -/
def isIdentityClause (line : List Char) : Bool :=
  isSubList "IDENTITY".toList (upperL line) ||
  isSubList "AUTO_INCREMENT".toList (upperL line) ||
  isSubList "SERIAL".toList (upperL line)

/-- One clause of the fallback loop: strip the clause, skip it when it
is empty or its uppercased text starts with a table-constraint keyword,
otherwise read the name from the first whitespace token (quote and
bracket characters stripped), the type from the second token (TEXT when
absent), and the identity flag from the whole clause. -/
def clauseToColumn (l : List Char) : Option Column :=
  let line := stripChars l
  if line.isEmpty then none
  else if startsWithAny (upperL line) constraintKeywords then none
  else
    match pySplitGo line [] with
    | [] => none
    | p0 :: ps =>
      some { name := String.mk (stripSet p0),
             type := String.mk (match ps with | [] => "TEXT".toList | p1 :: _ => p1),
             is_identity := isIdentityClause line }

/-- The loop of the fallback pass over the split clauses. -/
def buildColumns (defs : List (List Char)) : List Column :=
  defs.filterMap clauseToColumn

/-- The lazy group of the fallback pattern followed by the literal
close-paren and semicolon: the shortest prefix whose two following
characters are the terminator. -/
def lazyBody : List Char → Option (List Char)
  | [] => none
  | [_] => none
  | c :: d :: rest =>
    if c = ')' && d = ';' then some []
    else (lazyBody (d :: rest)).map (fun b => c :: b)

/-- Case-insensitive literal match (re.IGNORECASE): the rest of the
input after the pattern, or none. -/
def matchCI : List Char → List Char → Option (List Char)
  | [], s => some s
  | _ :: _, [] => none
  | p :: ps, c :: cs => if p.toLower = c.toLower then matchCI ps cs else none

/-- The optional opening quote alternatives of the fallback pattern. -/
def openQ (c : Char) : Bool := c = '"' || c = sqChar || c = bqChar || c = '['

/-- The optional closing quote alternatives of the fallback pattern:
note the closing bracket where the opening set has the opening one; the
two optionals are matched independently. -/
def closeQ (c : Char) : Bool := c = '"' || c = sqChar || c = bqChar || c = ']'

/-- After the optional closing quote: any whitespace, an opening
parenthesis, then the lazy body. -/
def matchAfterQ2 (s : List Char) : Option (List Char) :=
  match s.dropWhile isSpace with
  | c :: rest => if c = '(' then lazyBody rest else none
  | [] => none

/-- The table name (a case-insensitive literal, as re.escape makes it)
followed by the optional closing quote, consumed greedily with
backtracking. -/
def matchFromName (tbl s : List Char) : Option (List Char) :=
  match matchCI tbl s with
  | none => none
  | some r =>
    match r with
    | c :: r2 =>
      if closeQ c then (matchAfterQ2 r2).orElse (fun _ => matchAfterQ2 r)
      else matchAfterQ2 r
    | [] => matchAfterQ2 []

/-- The optional opening quote, consumed greedily with backtracking. -/
def matchFromOpenQ (tbl s : List Char) : Option (List Char) :=
  match s with
  | c :: r2 =>
    if openQ c then (matchFromName tbl r2).orElse (fun _ => matchFromName tbl s)
    else matchFromName tbl s
  | [] => matchFromName tbl []

/-- The one-or-more whitespace before the optional quote: the lengths
are tried greedily from the whole whitespace run down to one
character. -/
def tryLens (tbl r : List Char) : Nat → Option (List Char)
  | 0 => none
  | k + 1 => (matchFromOpenQ tbl (r.drop (k + 1))).orElse (fun _ => tryLens tbl r k)

/-- One attempt of the fallback pattern at the current position.  The
whitespace between CREATE and TABLE needs no backtracking: TABLE cannot
begin with a whitespace character, so only the maximal run can be
followed by it. -/
def matchCreateAt (tbl s : List Char) : Option (List Char) :=
  match matchCI "CREATE".toList s with
  | none => none
  | some r1 =>
    let w1 := (r1.takeWhile isSpace).length
    if w1 = 0 then none
    else
      match matchCI "TABLE".toList (r1.drop w1) with
      | none => none
      | some r2 => tryLens tbl r2 (r2.takeWhile isSpace).length

/-- re.search: the pattern attempted at every position from the left,
first success wins. -/
def searchFrom (tbl : List Char) : List Char → Option (List Char)
  | [] => none
  | c :: rest => (matchCreateAt tbl (c :: rest)).orElse (fun _ => searchFrom tbl rest)

/-- The fallback pass of parse_schema on character lists: locate the
parenthesized body with the tolerant pattern, split it with the
comma-aware tokenizer and build the column list; the empty list when
the pattern matches nowhere. -/
def parse_schema_fallbackL (sql tbl : List Char) : List Column :=
  match searchFrom tbl sql with
  | some body => buildColumns (splitCols body 0 [])
  | none => []

/-- `parse_schema(sql_content, table_name)`.  Modelled from the spec:
the structured pass hands the whole script to the external sqlglot
library (four dialects tried in order, every per-dialect parse failure
swallowed), and sqlglot is not part of this repository, so the outcome
of that pass arrives here as a parameter: `some cols` when some dialect
parsed the script and contained a CREATE TABLE statement matching the
requested name, in which case the code returns exactly those columns,
and `none` when every dialect failed or no parsed statement matched, in
which case the regex fallback below runs.  The fallback is the faithful
embedding of the source. -/
def parse_schema (structured : Option (List Column)) (sql tbl : String) : List Column :=
  match structured with
  | some cols => cols
  | none => parse_schema_fallbackL sql.toList tbl.toList

/-- The identifier character class of the context-detector patterns:
ASCII letters, digits, underscore, brackets and the three quote
characters. -/
def identClassChar (c : Char) : Bool :=
  c.isAlpha || c.isDigit || c = '_' || c = '[' || c = ']' ||
  c = bqChar || c = '"' || c = sqChar

/-- One attempt of the USE pattern at the current position: the letters
USE with no word-boundary requirement, one or more whitespace, then one
or more identifier-class characters, captured. -/
def matchUseAt (s : List Char) : Option (List Char) :=
  match matchCI "USE".toList s with
  | none => none
  | some r =>
    let w := (r.takeWhile isSpace).length
    if w = 0 then none
    else
      let g := (r.drop w).takeWhile identClassChar
      if g.isEmpty then none else some g

/-- One attempt of the CREATE DATABASE pattern at the current
position. -/
def matchCreateDbAt (s : List Char) : Option (List Char) :=
  match matchCI "CREATE".toList s with
  | none => none
  | some r1 =>
    let w1 := (r1.takeWhile isSpace).length
    if w1 = 0 then none
    else
      match matchCI "DATABASE".toList (r1.drop w1) with
      | none => none
      | some r2 =>
        let w2 := (r2.takeWhile isSpace).length
        if w2 = 0 then none
        else
          let g := (r2.drop w2).takeWhile identClassChar
          if g.isEmpty then none else some g

/-- re.search for a given single-position attempt. -/
def searchPat (att : List Char → Option (List Char)) : List Char → Option (List Char)
  | [] => none
  | c :: rest => (att (c :: rest)).orElse (fun _ => searchPat att rest)

/-- `extract_database_name(sql_content, engine)`: the USE pattern
first, then the CREATE DATABASE pattern, the captured identifier
stripped of quote and bracket characters; the engine argument is
unused, as in the source. -/
def extract_database_name (sql engine : String) : Option String :=
  match searchPat matchUseAt sql.toList with
  | some g => some (String.mk (stripSet g))
  | none =>
    match searchPat matchCreateDbAt sql.toList with
    | some g => some (String.mk (stripSet g))
    | none => none

/-- The string rendered for the test value of the claim about quote
escaping. -/
def obrien : String := String.mk ['O', sqChar, 'B', 'r', 'i', 'e', 'n']

/-- The expected rendering of `obrien`: wrapped in single quotes with
the inner quote doubled. -/
def obrienEscaped : String :=
  String.mk [sqChar, 'O', sqChar, sqChar, 'B', 'r', 'i', 'e', 'n', sqChar]

/-- The clause of a column named `keywords`: its first whitespace token
is not a constraint keyword, but it begins with the letters KEY. -/
def kwClause : List Char := "keywords VARCHAR(50)".toList

/-- The clause of a column named `index_name`: its first whitespace
token is not a constraint keyword, but it begins with INDEX. -/
def idxClause : List Char := "index_name VARCHAR(10)".toList

/-- The first whitespace-delimited token of a stripped clause,
uppercased: the quantity the specification filters on. -/
def specFirstTokenUpper (l : List Char) : List Char :=
  match pySplitGo (stripChars l) [] with
  | [] => []
  | p :: _ => upperL p

/-- The end-to-end example script of the specification. -/
def usersScript : String :=
  "CREATE TABLE users (id INT IDENTITY(1,1), email VARCHAR(255), created_at DATETIME);"

/-- The descriptors the specification expects for `usersScript`. -/
def usersExpected : List Column :=
  [⟨"id", "INT", true⟩, ⟨"email", "VARCHAR(255)", false⟩,
   ⟨"created_at", "DATETIME", false⟩]

/-- Identifier characters for table names in the quoting claims: ASCII
letters, digits and underscore. -/
def identChar (c : Char) : Bool := c.isAlpha || c.isDigit || c = '_'

/-- The characters CREATE TABLE followed by one space, the fixed prefix
of the quoting-claim scripts. -/
def ctHeadChars : List Char :=
  ['C', 'R', 'E', 'A', 'T', 'E', ' ', 'T', 'A', 'B', 'L', 'E', ' ']

/-- The script tail of the quoting claims: one space, the opening
parenthesis, the body and the terminator. -/
def sqlTail (body : List Char) : List Char := ' ' :: '(' :: (body ++ [')', ';'])

/-- CREATE TABLE with an opening bracket before the name and a double
quote after it: mismatched quoting. -/
def scriptMismatchA (tbl body : List Char) : List Char :=
  ctHeadChars ++ '[' :: (tbl ++ '"' :: sqlTail body)

/-- CREATE TABLE with no opening quote and a closing bracket after the
name: one-sided quoting. -/
def scriptMismatchB (tbl body : List Char) : List Char :=
  ctHeadChars ++ (tbl ++ ']' :: sqlTail body)

/-- CREATE TABLE with the name properly bracketed. -/
def scriptBracketed (tbl body : List Char) : List Char :=
  ctHeadChars ++ '[' :: (tbl ++ ']' :: sqlTail body)

/-- CREATE TABLE with the unquoted name. -/
def scriptPlain (tbl body : List Char) : List Char :=
  ctHeadChars ++ (tbl ++ sqlTail body)

/-- A concrete table name for witnesses. -/
def wTbl : List Char := ['u', 's', 'e', 'r', 's']

/-- A concrete column body for witnesses. -/
def wBody : List Char := ['i', 'd', ' ', 'I', 'N', 'T']

lemma append_singleton_isEmpty (cur : List Char) (c : Char) :
    (cur ++ [c]).isEmpty = false := by
  cases cur <;> rfl

/-- The number of segments produced by the split is the number of
zero-depth commas, plus one more exactly when the final accumulated
fragment is non-empty. -/
lemma splitCols_length (l : List Char) : ∀ (d : Int) (cur : List Char),
    (splitCols l d cur).length =
      topCommas l d + (if trailingEmpty l d cur.isEmpty then 0 else 1) := by
  induction l with
  | nil =>
    intro d cur
    simp only [splitCols, topCommas, trailingEmpty]
    cases cur <;> simp
  | cons c rest ih =>
    intro d cur
    simp only [splitCols, topCommas, trailingEmpty]
    by_cases hp : c = '('
    · simp only [if_pos hp, ih, append_singleton_isEmpty]
    · by_cases hq : c = ')'
      · simp only [if_neg hp, if_pos hq, ih, append_singleton_isEmpty]
      · by_cases hr : c = ',' ∧ d = 0
        · simp only [if_neg hp, if_neg hq, if_pos hr, List.length_cons, ih,
            List.isEmpty_nil]
          omega
        · simp only [if_neg hp, if_neg hq, if_neg hr, ih, append_singleton_isEmpty]

lemma depthRun_append (a b : List Char) : ∀ d : Int,
    depthRun (a ++ b) d = (depthRun a d).bind (depthRun b) := by
  induction a with
  | nil => intro d; rfl
  | cons c rest ih =>
    intro d
    simp only [List.cons_append, depthRun]
    by_cases hp : c = '('
    · simp [hp, ih]
    · by_cases hq : c = ')'
      · by_cases hd : d ≤ 0
        · simp [hp, hq, hd]
        · simp [hp, hq, hd, ih]
      · simp [hp, hq, ih]

lemma space_not_paren (c : Char) (h : isSpace c = true) : isParen c = false := by
  simp only [isSpace, Bool.or_eq_true, decide_eq_true_eq] at h
  rcases h with ((((h | h) | h) | h) | h) | h <;> subst h <;> decide

/-- The depth scan only looks at the parenthesis characters. -/
lemma depthRun_filter (l : List Char) : ∀ d : Int,
    depthRun l d = depthRun (l.filter isParen) d := by
  induction l with
  | nil => intro d; rfl
  | cons c rest ih =>
    intro d
    by_cases hp : c = '('
    · subst hp
      rw [List.filter_cons, if_pos (show isParen '(' = true by decide)]
      simp only [depthRun, if_pos rfl]
      exact ih _
    · by_cases hq : c = ')'
      · subst hq
        rw [List.filter_cons, if_pos (show isParen ')' = true by decide)]
        simp only [depthRun, if_neg hp, if_pos rfl]
        by_cases hd : d ≤ 0
        · simp [hd]
        · simp [hd, ih]
      · have hnp : isParen c = false := by
          simp [isParen, hp, hq]
        rw [List.filter_cons, if_neg (by simp [hnp])]
        simp only [depthRun, if_neg hp, if_neg hq]
        exact ih _

lemma filter_dropWhile_isSpace (l : List Char) :
    (l.dropWhile isSpace).filter isParen = l.filter isParen := by
  induction l with
  | nil => rfl
  | cons c rest ih =>
    by_cases hs : isSpace c = true
    · rw [List.dropWhile_cons, if_pos hs, ih, List.filter_cons,
        if_neg (by simp [space_not_paren c hs])]
    · rw [List.dropWhile_cons, if_neg hs]

/-- Stripping whitespace does not change the parenthesis content. -/
lemma filter_stripChars (l : List Char) :
    (stripChars l).filter isParen = l.filter isParen := by
  unfold stripChars dropTrail
  rw [List.filter_reverse, filter_dropWhile_isSpace, ← List.filter_reverse,
    List.reverse_reverse, filter_dropWhile_isSpace]

lemma balanced_stripChars (x : List Char) (h : depthRun x 0 = some 0) :
    depthRun (stripChars x) 0 = some 0 := by
  rw [depthRun_filter, filter_stripChars, ← depthRun_filter]
  exact h

/-- Every segment the split emits from a balanced input is balanced. -/
lemma splitCols_balanced (l : List Char) : ∀ (d : Int) (cur : List Char),
    depthRun l d = some 0 → depthRun cur 0 = some d →
    ∀ s ∈ splitCols l d cur, depthRun s 0 = some 0 := by
  induction l with
  | nil =>
    intro d cur hl hcur s hs
    simp only [depthRun, Option.some.injEq] at hl
    subst hl
    simp only [splitCols] at hs
    by_cases hc : cur.isEmpty = true
    · rw [if_pos hc] at hs
      simp at hs
    · rw [if_neg hc] at hs
      simp only [List.mem_singleton] at hs
      subst hs
      exact balanced_stripChars cur hcur
  | cons c rest ih =>
    intro d cur hl hcur s hs
    simp only [splitCols] at hs
    by_cases hp : c = '('
    · subst hp
      rw [if_pos rfl] at hs
      simp only [depthRun, if_pos rfl] at hl
      refine ih (d + 1) (cur ++ ['(']) hl ?_ s hs
      rw [depthRun_append, hcur]
      rfl
    · by_cases hq : c = ')'
      · subst hq
        rw [if_neg hp, if_pos rfl] at hs
        simp only [depthRun, if_neg hp, if_pos rfl, if_true, eq_self_iff_true] at hl
        by_cases hd : d ≤ 0
        · rw [if_pos hd] at hl
          cases hl
        · rw [if_neg hd] at hl
          refine ih (d - 1) (cur ++ [')']) hl ?_ s hs
          rw [depthRun_append, hcur]
          show depthRun [')'] d = some (d - 1)
          simp only [depthRun, if_neg hp, if_pos rfl, if_true, eq_self_iff_true,
            if_neg hd]
      · by_cases hr : c = ',' ∧ d = 0
        · rw [if_neg hp, if_neg hq, if_pos hr] at hs
          obtain ⟨-, hd0⟩ := hr
          subst hd0
          simp only [depthRun, if_neg hp, if_neg hq] at hl
          rcases List.mem_cons.mp hs with hs | hs
          · subst hs
            exact balanced_stripChars cur hcur
          · exact ih 0 [] hl rfl s hs
        · rw [if_neg hp, if_neg hq, if_neg hr] at hs
          simp only [depthRun, if_neg hp, if_neg hq] at hl
          refine ih d (cur ++ [c]) hl ?_ s hs
          rw [depthRun_append, hcur]
          show depthRun [c] d = some d
          simp only [depthRun, if_neg hp, if_neg hq]

lemma dropWhile_isSpace_idem (l : List Char) :
    (l.dropWhile isSpace).dropWhile isSpace = l.dropWhile isSpace := by
  induction l with
  | nil => rfl
  | cons c rest ih =>
    by_cases h : isSpace c = true
    · rw [List.dropWhile_cons, if_pos h, ih]
    · rw [List.dropWhile_cons, if_neg h, List.dropWhile_cons, if_neg h]

lemma dropWhile_head_false {p : Char → Bool} {l : List Char} {c : Char} {w : List Char}
    (h : l.dropWhile p = c :: w) : p c = false := by
  induction l with
  | nil => cases h
  | cons a rest ih =>
    by_cases ha : p a = true
    · rw [List.dropWhile_cons, if_pos ha] at h
      exact ih h
    · rw [List.dropWhile_cons, if_neg ha] at h
      injection h with h1 h2
      subst h1
      exact Bool.eq_false_iff.mpr ha

/-- A list is its trailing-whitespace-stripped part followed by the
stripped whitespace. -/
lemma dropTrail_decomp (y : List Char) :
    y = dropTrail y ++ (y.reverse.takeWhile isSpace).reverse := by
  conv_lhs => rw [← List.reverse_reverse y,
    ← List.takeWhile_append_dropWhile (p := isSpace) (l := y.reverse)]
  rw [List.reverse_append]
  rfl

lemma dropTrail_idem (y : List Char) : dropTrail (dropTrail y) = dropTrail y := by
  unfold dropTrail
  rw [List.reverse_reverse, dropWhile_isSpace_idem]

lemma dropWhile_dropTrail (l : List Char) :
    (dropTrail (l.dropWhile isSpace)).dropWhile isSpace
      = dropTrail (l.dropWhile isSpace) := by
  cases hy : dropTrail (l.dropWhile isSpace) with
  | nil => rfl
  | cons c w =>
    have hdec := dropTrail_decomp (l.dropWhile isSpace)
    rw [hy, List.cons_append] at hdec
    have hc : isSpace c = false := dropWhile_head_false hdec
    rw [List.dropWhile_cons, if_neg (by simp [hc])]

lemma stripChars_idem (l : List Char) : stripChars (stripChars l) = stripChars l := by
  show dropTrail ((dropTrail (l.dropWhile isSpace)).dropWhile isSpace)
      = dropTrail (l.dropWhile isSpace)
  rw [dropWhile_dropTrail, dropTrail_idem]

/-- Every segment the split emits is already stripped. -/
lemma splitCols_stripped (l : List Char) : ∀ (d : Int) (cur : List Char),
    ∀ s ∈ splitCols l d cur, stripChars s = s := by
  induction l with
  | nil =>
    intro d cur s hs
    simp only [splitCols] at hs
    by_cases hc : cur.isEmpty = true
    · rw [if_pos hc] at hs
      simp at hs
    · rw [if_neg hc] at hs
      simp only [List.mem_singleton] at hs
      subst hs
      exact stripChars_idem cur
  | cons c rest ih =>
    intro d cur s hs
    simp only [splitCols] at hs
    split_ifs at hs with h1 h2 h3
    · exact ih _ _ s hs
    · exact ih _ _ s hs
    · rcases List.mem_cons.mp hs with hs | hs
      · subst hs
        exact stripChars_idem cur
      · exact ih _ _ s hs
    · exact ih _ _ s hs

/-- Claim C3 counterexample: the input consisting of a letter followed
by a top-level comma is balanced, yet the split produces one segment
while the zero-depth comma count plus one is two. -/
theorem C3_counterexample :
    depthRun ['a', ','] 0 = some 0 ∧
    (splitCols ['a', ','] 0 []).length = 1 ∧
    topCommas ['a', ','] 0 + 1 = 2 := by
  decide

/-- Claim C3 amended: for every balanced input, every produced segment
is balanced, and the number of segments equals the number of zero-depth
commas plus one, except that the final segment is not counted when the
accumulated fragment is empty at end of input (empty input, or input
ending exactly in a zero-depth comma). -/
theorem C3_amended (l : List Char) (h : depthRun l 0 = some 0) :
    (splitCols l 0 []).length =
      topCommas l 0 + (if trailingEmpty l 0 true then 0 else 1) ∧
    ∀ s ∈ splitCols l 0 [], depthRun s 0 = some 0 :=
  ⟨splitCols_length l 0 [], fun s hs => splitCols_balanced l 0 [] h rfl s hs⟩

/-- Claim C3 amended witness: the statement evaluated on a balanced
input with one nested and one top-level comma. -/
theorem C3_amended_witness :
    depthRun ['a', '(', 'b', ',', 'c', ')', ',', 'd'] 0 = some 0 ∧
    ((splitCols ['a', '(', 'b', ',', 'c', ')', ',', 'd'] 0 []).length =
      topCommas ['a', '(', 'b', ',', 'c', ')', ',', 'd'] 0 +
        (if trailingEmpty ['a', '(', 'b', ',', 'c', ')', ',', 'd'] 0 true then 0 else 1) ∧
     ∀ s ∈ splitCols ['a', '(', 'b', ',', 'c', ')', ',', 'd'] 0 [],
       depthRun s 0 = some 0) :=
  ⟨by decide, C3_amended _ (by decide)⟩

/-- Claim C4 counterexample: when the input ends with a top-level comma
followed only by whitespace, the trailing fragment is not dropped; it
is emitted as the empty clause. -/
theorem C4_counterexample :
    splitCols ['a', ',', ' '] 0 [] = [['a'], []] ∧
    [] ∈ splitCols ['a', ',', ' '] 0 [] := by
  decide

/-- Claim C4 amended: every clause produced by the comma-aware split is
equal to its own stripped form, so it carries no leading or trailing
whitespace; but a trailing fragment is dropped only when it contains no
characters at all, and fragments that strip to nothing are produced as
empty clauses. -/
theorem C4_amended (l s : List Char) (hs : s ∈ splitCols l 0 []) :
    stripChars s = s :=
  splitCols_stripped l 0 [] s hs

/-- Claim C4 amended witness: the second segment of a two-clause input
is a member of the split and equals its stripped form. -/
theorem C4_amended_witness :
    ['b'] ∈ splitCols ['a', ',', ' ', 'b'] 0 [] ∧ stripChars ['b'] = ['b'] :=
  ⟨by decide, C4_amended ['a', ',', ' ', 'b'] ['b'] (by decide)⟩

/-- Claim C5: for every engine, formatting null yields the bare literal
NULL, formatting a string yields the string with every single quote
doubled and the result wrapped in single quotes, and in particular the
name OBrien with an inner quote formats to its quote-doubled quoted
form. -/
theorem C5_formatter :
    (∀ engine : String, format_sql_value .vNull engine = "NULL") ∧
    (∀ (engine s : String),
      format_sql_value (.vStr s) engine = sqStr ++ doubleQuotes s ++ sqStr) ∧
    (∀ engine : String, format_sql_value (.vStr obrien) engine = obrienEscaped) := by
  refine ⟨fun _ => rfl, fun engine s => rfl, fun engine => ?_⟩
  show sqStr ++ doubleQuotes obrien ++ sqStr = obrienEscaped
  decide

/-- Claim C6: booleans are formatted by the boolean branch, never by the
numeric branch: under engine mssql they render as 1 and 0, under every
other engine as TRUE and FALSE, and the result is never the string that
the numeric path (Python str of the value) would produce, even though
booleans satisfy the Python numeric isinstance test. -/
theorem C6_bool_formatting :
    (format_sql_value (.vBool true) "mssql" = "1") ∧
    (format_sql_value (.vBool false) "mssql" = "0") ∧
    (∀ engine : String, engine ≠ "mssql" →
      format_sql_value (.vBool true) engine = "TRUE" ∧
      format_sql_value (.vBool false) engine = "FALSE") ∧
    (∀ (b : Bool) (engine : String),
      pyIsNumeric (.vBool b) = true ∧
      format_sql_value (.vBool b) engine ≠ pyStr (.vBool b)) := by
  refine ⟨rfl, rfl, fun engine h => ?_, fun b engine => ⟨rfl, ?_⟩⟩
  · constructor
    · show (if engine = "mssql" then "1" else "TRUE") = "TRUE"
      rw [if_neg h]
    · show (if engine = "mssql" then "0" else "FALSE") = "FALSE"
      rw [if_neg h]
  · show (if engine = "mssql" then (if b then "1" else "0")
      else if b then "TRUE" else "FALSE") ≠ pyStr (.vBool b)
    by_cases h : engine = "mssql" <;> cases b <;> simp [h, pyStr]

/-- Claim C6 witness: the non-mssql branch instantiated at engine
postgresql. -/
theorem C6_bool_formatting_witness :
    format_sql_value (.vBool true) "postgresql" = "TRUE" ∧
    format_sql_value (.vBool false) "postgresql" = "FALSE" :=
  C6_bool_formatting.2.2.1 "postgresql" (by decide)

/-- A name that starts with the three characters id-underscore is never
the two-character name id. -/
lemma startsWith_id_ne (nm : String) (h : pyStartsWith nm "id_" = true) :
    nm ≠ "id" := by
  intro he
  subst he
  exact absurd h (by decide)

set_option maxHeartbeats 1000000 in
/-- Claim C7: the bounded small-integer generator (rule 8) is selected
exactly for lowercased names that start with the prefix id-underscore,
are not exactly id_usuario, and match none of the name rules 1 to 7;
in particular it never fires for the names id or id_usuario, whatever
the declared type. -/
theorem C7_fk_rule :
    (∀ n t : String, map_column_to_mimesis n t = .fkSmallInt ↔
      (pyStartsWith (pyLower n) "id_" = true ∧ pyLower n ≠ "id_usuario" ∧
        specEarlierNameRule (pyLower n) = false)) ∧
    (∀ t : String, map_column_to_mimesis "id" t ≠ .fkSmallInt ∧
      map_column_to_mimesis "id_usuario" t ≠ .fkSmallInt) := by
  have key : ∀ n t : String, map_column_to_mimesis n t = .fkSmallInt ↔
      (pyStartsWith (pyLower n) "id_" = true ∧ pyLower n ≠ "id_usuario" ∧
        specEarlierNameRule (pyLower n) = false) := by
    intro n t
    unfold map_column_to_mimesis
    dsimp only
    by_cases h1 : pyIn "email" (pyLower n) = true
    · rw [if_pos h1]
      exact iff_of_false (by decide)
        (fun ⟨_, _, hrule⟩ => by simp [specEarlierNameRule, h1] at hrule)
    rw [if_neg h1]
    by_cases h2 : (pyIn "first_name" (pyLower n) || pyIn "firstname" (pyLower n)) = true
    · rw [if_pos h2]
      exact iff_of_false (by decide)
        (fun ⟨_, _, hrule⟩ => by simp [specEarlierNameRule, h2] at hrule)
    rw [if_neg h2]
    by_cases h3 : (pyIn "last_name" (pyLower n) || pyIn "lastname" (pyLower n)) = true
    · rw [if_pos h3]
      exact iff_of_false (by decide)
        (fun ⟨_, _, hrule⟩ => by simp [specEarlierNameRule, h3] at hrule)
    rw [if_neg h3]
    by_cases h4 : pyIn "name" (pyLower n) = true
    · rw [if_pos h4]
      exact iff_of_false (by decide)
        (fun ⟨_, _, hrule⟩ => by simp [specEarlierNameRule, h4] at hrule)
    rw [if_neg h4]
    by_cases h5 : (pyIn "phone" (pyLower n) || pyIn "tel" (pyLower n)) = true
    · rw [if_pos h5]
      exact iff_of_false (by decide)
        (fun ⟨_, _, hrule⟩ => by simp [specEarlierNameRule, h5] at hrule)
    rw [if_neg h5]
    by_cases h6 : pyIn "address" (pyLower n) = true
    · rw [if_pos h6]
      exact iff_of_false (by decide)
        (fun ⟨_, _, hrule⟩ => by simp [specEarlierNameRule, h6] at hrule)
    rw [if_neg h6]
    by_cases h7 : pyIn "city" (pyLower n) = true
    · rw [if_pos h7]
      exact iff_of_false (by decide)
        (fun ⟨_, _, hrule⟩ => by simp [specEarlierNameRule, h7] at hrule)
    rw [if_neg h7]
    by_cases h8 : pyIn "country" (pyLower n) = true
    · rw [if_pos h8]
      exact iff_of_false (by decide)
        (fun ⟨_, _, hrule⟩ => by simp [specEarlierNameRule, h8] at hrule)
    rw [if_neg h8]
    by_cases h9 : (pyIn "zip" (pyLower n) || pyIn "postal" (pyLower n)) = true
    · rw [if_pos h9]
      exact iff_of_false (by decide)
        (fun ⟨_, _, hrule⟩ => by simp [specEarlierNameRule, h9] at hrule)
    rw [if_neg h9]
    by_cases h10 : pyIn "company" (pyLower n) = true
    · rw [if_pos h10]
      exact iff_of_false (by decide)
        (fun ⟨_, _, hrule⟩ => by simp [specEarlierNameRule, h10] at hrule)
    rw [if_neg h10]
    by_cases h11 : (pyIn "date" (pyLower n) || pyIn "created_at" (pyLower n) ||
        pyIn "updated_at" (pyLower n)) = true
    · rw [if_pos h11]
      exact iff_of_false (by decide)
        (fun ⟨_, _, hrule⟩ => by simp [specEarlierNameRule, h11] at hrule)
    rw [if_neg h11]
    by_cases h12 : (pyIn "price" (pyLower n) || pyIn "amount" (pyLower n) ||
        pyIn "salary" (pyLower n)) = true
    · rw [if_pos h12]
      exact iff_of_false (by decide)
        (fun ⟨_, _, hrule⟩ => by simp [specEarlierNameRule, h12] at hrule)
    rw [if_neg h12]
    by_cases h13 : (pyStartsWith (pyLower n) "id_" && decide (pyLower n ≠ "id_usuario") &&
        decide (pyLower n ≠ "id")) = true
    · rw [if_pos h13]
      simp only [Bool.and_eq_true, decide_eq_true_eq] at h13
      refine iff_of_true rfl ⟨h13.1.1, h13.1.2, ?_⟩
      simp only [Bool.not_eq_true] at h1 h2 h3 h4 h5 h6 h7 h8 h9 h10 h11 h12
      simp [specEarlierNameRule, h1, h2, h3, h4, h5, h6, h7, h8, h9, h10, h11, h12]
    rw [if_neg h13]
    constructor
    · intro he
      split_ifs at he
    · rintro ⟨hsw, hne, -⟩
      refine absurd ?_ h13
      simp [hsw, hne, startsWith_id_ne _ hsw]
  refine ⟨key, fun t => ⟨?_, ?_⟩⟩
  · intro h
    obtain ⟨hsw, -, -⟩ := (key "id" t).mp h
    exact absurd hsw (by decide)
  · intro h
    obtain ⟨-, hne, -⟩ := (key "id_usuario" t).mp h
    exact hne (by decide)

lemma isEmpty_false_of_ne_nil {l : List Char} (h : l ≠ []) : l.isEmpty = false := by
  cases l with
  | nil => exact absurd rfl h
  | cons a t => rfl

lemma pySplitGo_ne_nil (l : List Char) : ∀ cur : List Char, cur ≠ [] →
    pySplitGo l cur ≠ [] := by
  induction l with
  | nil =>
    intro cur hc
    simp only [pySplitGo]
    rw [if_neg (by simp [isEmpty_false_of_ne_nil hc])]
    simp
  | cons c rest ih =>
    intro cur hc
    simp only [pySplitGo]
    by_cases hs : isSpace c = true
    · rw [if_pos hs, if_neg (by simp [isEmpty_false_of_ne_nil hc])]
      simp
    · rw [if_neg hs]
      exact ih (c :: cur) (by simp)

lemma stripChars_head_not_space {l : List Char} {c : Char} {w : List Char}
    (h : stripChars l = c :: w) : isSpace c = false := by
  have hdec := dropTrail_decomp (l.dropWhile isSpace)
  have h2 : dropTrail (l.dropWhile isSpace) = c :: w := h
  rw [h2, List.cons_append] at hdec
  exact dropWhile_head_false hdec

lemma pySplitGo_stripped_ne_nil {l : List Char}
    (h : (stripChars l).isEmpty = false) : pySplitGo (stripChars l) [] ≠ [] := by
  cases hsl : stripChars l with
  | nil => rw [hsl] at h; cases h
  | cons c w =>
    have hc : isSpace c = false := stripChars_head_not_space hsl
    simp only [pySplitGo]
    rw [if_neg (by simp [hc])]
    exact pySplitGo_ne_nil w [c] (by simp)

/-- Claim C1 counterexample: the clauses of columns named keywords and
index_name are excluded by the fallback filter even though their first
whitespace token equals none of the five constraint keywords. -/
theorem C1_counterexample :
    clauseToColumn kwClause = none ∧
    clauseToColumn idxClause = none ∧
    specFirstTokenUpper kwClause ∉ constraintKeywords ∧
    specFirstTokenUpper idxClause ∉ constraintKeywords := by
  decide

/-- Claim C1 amended: a clause of the fallback pass is excluded exactly
when its stripped text is empty or its uppercased stripped text has one
of PRIMARY, FOREIGN, KEY, CONSTRAINT or INDEX as a string prefix; the
filter is a prefix test on the whole clause, not an equality test on
the first token, so clauses like keywords or index_name are excluded
too. -/
theorem C1_amended (l : List Char) :
    clauseToColumn l = none ↔
      ((stripChars l).isEmpty = true ∨
        startsWithAny (upperL (stripChars l)) constraintKeywords = true) := by
  unfold clauseToColumn
  dsimp only
  by_cases hb1 : (stripChars l).isEmpty = true
  · rw [if_pos hb1]
    exact iff_of_true rfl (Or.inl hb1)
  · rw [if_neg hb1]
    by_cases hb2 : startsWithAny (upperL (stripChars l)) constraintKeywords = true
    · rw [if_pos hb2]
      exact iff_of_true rfl (Or.inr hb2)
    · rw [if_neg hb2]
      have hfalse : (stripChars l).isEmpty = false := by
        cases hI : (stripChars l).isEmpty
        · rfl
        · exact absurd hI hb1
      have hne : pySplitGo (stripChars l) [] ≠ [] := pySplitGo_stripped_ne_nil hfalse
      obtain ⟨p0, ps, hps⟩ := List.exists_cons_of_ne_nil hne
      rw [hps]
      constructor
      · intro hsome
        exact absurd hsome (by simp)
      · rintro (hx | hx)
        · exact absurd hx hb1
        · exact absurd hx hb2

set_option maxRecDepth 10000 in
/-- Claim C2: on the end-to-end example script, extraction returns
exactly the three descriptors id (type INT, identity), email (type
VARCHAR(255)), created_at (type DATETIME), in this order.  The
structured pass is delegated to the external sqlglot library; its
outcome is the parameter, constrained to what the specification allows
for this script: either no dialect matches, or the matching statement
yields these same descriptors.  The fallback path is computed exactly. -/
theorem C2_extraction (structured : Option (List Column))
    (h : structured = none ∨ structured = some usersExpected) :
    parse_schema structured usersScript "users" = usersExpected := by
  rcases h with h | h
  · subst h
    show parse_schema_fallbackL usersScript.toList "users".toList = usersExpected
    decide
  · subst h
    rfl

/-- Claim C2 witness: the structured pass yielding nothing, the
fallback produces the three descriptors. -/
theorem C2_extraction_witness :
    parse_schema none usersScript "users" = usersExpected :=
  C2_extraction none (Or.inl rfl)

/-- Claim C8: when the structured pass yields no matching table (the
`none` parameter) and the fallback pattern matches nowhere in the
script, extraction returns the empty list; the embedding is a total
function, so the not-found condition is signalled by the empty result
and never by an exception. -/
theorem C8_not_found (sql tbl : String)
    (h : searchFrom tbl.toList sql.toList = none) :
    parse_schema none sql tbl = [] := by
  show parse_schema_fallbackL sql.toList tbl.toList = []
  unfold parse_schema_fallbackL
  rw [h]

/-- Claim C8 witness: a script with no CREATE TABLE region for the
requested name yields the empty result. -/
theorem C8_not_found_witness :
    searchFrom "users".toList "SELECT 1;".toList = none ∧
    parse_schema none "SELECT 1;" "users" = [] :=
  ⟨by decide, C8_not_found "SELECT 1;" "users" (by decide)⟩

/-- Claim C10: the USE pattern has no word-boundary requirement, so on
a script whose whitespace-delimited words never equal USE but whose
word because ends in the letters, the detector returns the following
identifier foo instead of reporting nothing found. -/
theorem C10_use_without_boundary :
    (∀ engine : String, extract_database_name "because foo" engine = some "foo") ∧
    (pySplitGo (upperL "because foo".toList) []).all
      (fun w => w ≠ "USE".toList) = true :=
  ⟨fun _ => rfl, by decide⟩

lemma orElse_none (x : Option (List Char)) : x.orElse (fun _ => none) = x := by
  cases x <;> rfl

lemma matchCI_self_append (l r : List Char) : matchCI l (l ++ r) = some r := by
  induction l with
  | nil => rfl
  | cons c cs ih => simp [matchCI, ih]

lemma lazyBody_terminated (body : List Char) :
    (lazyBody (body ++ [')', ';'])).isSome = true := by
  induction body with
  | nil => rfl
  | cons c rest ih =>
    cases hE : rest ++ [')', ';'] with
    | nil => exact absurd hE (by simp)
    | cons d r2 =>
      rw [List.cons_append, hE]
      simp only [lazyBody]
      by_cases hcd : (c = ')' && d = ';') = true
      · rw [if_pos hcd]
        rfl
      · rw [if_neg hcd, ← hE]
        cases hx : lazyBody (rest ++ [')', ';']) with
        | none => rw [hx] at ih; cases ih
        | some v => rfl

lemma matchAfterQ2_tail (body : List Char) :
    matchAfterQ2 (sqlTail body) = lazyBody (body ++ [')', ';']) := rfl

lemma matchFromName_cons (tbl : List Char) (c : Char) (r2 : List Char) :
    matchFromName tbl (tbl ++ c :: r2) =
      if closeQ c then (matchAfterQ2 r2).orElse (fun _ => matchAfterQ2 (c :: r2))
      else matchAfterQ2 (c :: r2) := by
  unfold matchFromName
  rw [matchCI_self_append]

lemma matchFromOpenQ_quote (tbl s : List Char) (c : Char) (hc : openQ c = true) :
    matchFromOpenQ tbl (c :: s) =
      (matchFromName tbl s).orElse (fun _ => matchFromName tbl (c :: s)) := by
  simp only [matchFromOpenQ]
  rw [if_pos hc]

lemma matchFromOpenQ_noquote (tbl s : List Char) (c : Char) (hc : openQ c = false) :
    matchFromOpenQ tbl (c :: s) = matchFromName tbl (c :: s) := by
  simp only [matchFromOpenQ]
  rw [if_neg (by simp [hc])]

lemma matchCreateAt_ct (tbl r : List Char) (hr : r.takeWhile isSpace = []) :
    matchCreateAt tbl (ctHeadChars ++ r) = matchFromOpenQ tbl r := by
  have h0 : matchCreateAt tbl (ctHeadChars ++ r)
      = tryLens tbl (' ' :: r) ((' ' :: r).takeWhile isSpace).length := rfl
  rw [h0]
  have h1 : (' ' :: r).takeWhile isSpace = ' ' :: r.takeWhile isSpace := rfl
  rw [h1, hr]
  show (matchFromOpenQ tbl ((' ' :: r).drop 1)).orElse (fun _ => tryLens tbl (' ' :: r) 0)
      = matchFromOpenQ tbl r
  exact orElse_none _

lemma searchFrom_ct (tbl r x : List Char)
    (hm : matchCreateAt tbl (ctHeadChars ++ r) = some x) :
    searchFrom tbl (ctHeadChars ++ r) = some x := by
  have hm2 : matchCreateAt tbl
      ('C' :: (['R', 'E', 'A', 'T', 'E', ' ', 'T', 'A', 'B', 'L', 'E', ' '] ++ r))
      = some x := hm
  show searchFrom tbl
      ('C' :: (['R', 'E', 'A', 'T', 'E', ' ', 'T', 'A', 'B', 'L', 'E', ' '] ++ r))
      = some x
  simp only [searchFrom, hm2]
  rfl

lemma ident_not_space (c : Char) (h : identChar c = true) : isSpace c = false := by
  cases hs : isSpace c
  · rfl
  · exfalso
    simp only [isSpace, Bool.or_eq_true, decide_eq_true_eq] at hs
    rcases hs with ((((hs | hs) | hs) | hs) | hs) | hs <;> subst hs <;>
      exact absurd h (by decide)

lemma ident_not_openQ (c : Char) (h : identChar c = true) : openQ c = false := by
  cases hq : openQ c
  · rfl
  · exfalso
    simp only [openQ, Bool.or_eq_true, decide_eq_true_eq] at hq
    rcases hq with ((hq | hq) | hq) | hq <;> subst hq <;>
      exact absurd h (by decide)

/-- Claim C9: the opening and closing quote characters around the table
identifier are matched independently and each is optional, so for every
identifier-character table name and every body, the region with an
opening bracket and a closing double quote, the region with only a
closing bracket, the properly bracketed region and the unquoted region
all match, and all capture the same body. -/
theorem C9_quote_mismatch (tbl body : List Char) (h1 : tbl ≠ [])
    (h2 : ∀ c ∈ tbl, identChar c = true) :
    ∃ cap,
      searchFrom tbl (scriptMismatchA tbl body) = some cap ∧
      searchFrom tbl (scriptMismatchB tbl body) = some cap ∧
      searchFrom tbl (scriptBracketed tbl body) = some cap ∧
      searchFrom tbl (scriptPlain tbl body) = some cap := by
  obtain ⟨t0, ttl, rfl⟩ := List.exists_cons_of_ne_nil h1
  have hid : identChar t0 = true := h2 t0 (List.mem_cons_self t0 ttl)
  have hsp : isSpace t0 = false := ident_not_space t0 hid
  have hoq : openQ t0 = false := ident_not_openQ t0 hid
  obtain ⟨cap, hcap⟩ := Option.isSome_iff_exists.mp (lazyBody_terminated body)
  have hname : ∀ c : Char, closeQ c = true →
      matchFromName (t0 :: ttl) ((t0 :: ttl) ++ c :: sqlTail body) = some cap := by
    intro c hc
    rw [matchFromName_cons, if_pos hc, matchAfterQ2_tail, hcap]
    rfl
  have hst : sqlTail body = ' ' :: '(' :: (body ++ [')', ';']) := rfl
  have hplain : matchFromName (t0 :: ttl) ((t0 :: ttl) ++ sqlTail body) = some cap := by
    rw [hst, matchFromName_cons, if_neg (by decide), ← hst, matchAfterQ2_tail, hcap]
  refine ⟨cap, ?_, ?_, ?_, ?_⟩
  · apply searchFrom_ct
    rw [matchCreateAt_ct _ _ (by rfl)]
    rw [matchFromOpenQ_quote _ _ '[' (by decide)]
    rw [hname '"' (by decide)]
    rfl
  · apply searchFrom_ct
    have hrB : ((t0 :: ttl) ++ ']' :: sqlTail body).takeWhile isSpace = [] := by
      rw [List.cons_append]
      simp [List.takeWhile_cons, hsp]
    rw [matchCreateAt_ct _ _ hrB, List.cons_append,
      matchFromOpenQ_noquote _ _ _ hoq, ← List.cons_append, hname ']' (by decide)]
  · apply searchFrom_ct
    rw [matchCreateAt_ct _ _ (by rfl)]
    rw [matchFromOpenQ_quote _ _ '[' (by decide)]
    rw [hname ']' (by decide)]
    rfl
  · apply searchFrom_ct
    have hrD : ((t0 :: ttl) ++ sqlTail body).takeWhile isSpace = [] := by
      rw [List.cons_append]
      simp [List.takeWhile_cons, hsp]
    rw [matchCreateAt_ct _ _ hrD, List.cons_append,
      matchFromOpenQ_noquote _ _ _ hoq, ← List.cons_append, hplain]

/-- Claim C9 witness: the four forms evaluated at the table users and
the body id INT. -/
theorem C9_quote_mismatch_witness :
    wTbl ≠ [] ∧ (∀ c ∈ wTbl, identChar c = true) ∧
    (∃ cap,
      searchFrom wTbl (scriptMismatchA wTbl wBody) = some cap ∧
      searchFrom wTbl (scriptMismatchB wTbl wBody) = some cap ∧
      searchFrom wTbl (scriptBracketed wTbl wBody) = some cap ∧
      searchFrom wTbl (scriptPlain wTbl wBody) = some cap) :=
  ⟨by decide, by decide, C9_quote_mismatch wTbl wBody (by decide) (by decide)⟩

end Datagen
